import Mathlib

/-!
Verification development for the clip-forge timeline export pipeline
(`src-tauri/src/ffmpeg/export.rs` and `src-tauri/src/commands/export.rs`).

Modelling conventions:
* Rust `f64` time/size quantities are modelled as `ℚ` (exact arithmetic;
  the source performs only comparisons, additions, subtractions,
  multiplications and divisions on them).
* Rust `String` stays `String`; the byte-lexicographic `String::cmp` is
  modelled by code-point lexicographic comparison on `String.data`
  (UTF-8 byte order and code-point order agree on lexicographic
  comparison of strings).
* `Vec::sort_by` (a stable sort) is modelled by `List.insertionSort`,
  which is also stable.
* Effectful operations (subprocess invocation, filesystem writes, temp
  file registration, tracker cleanup) are modelled by an explicit
  environment `Env` that prescribes the outcome of each external step,
  and an event trace `Event` recording what the code did, in order.
* `CommandError` values are modelled by the structured `ValErr` tags
  below (one tag per distinct error site; the formatted message text is
  not modelled).
-/

namespace ClipForge

/-- Strict code-point lexicographic order on char lists; models Rust's
byte-lexicographic `String::cmp` returning `Less`. -/
def charsLt : List Char → List Char → Bool
  | [], [] => false
  | [], _ :: _ => true
  | _ :: _, [] => false
  | a :: as, b :: bs =>
    decide (a < b) || (decide (a = b) && charsLt as bs)

/-- `ExportClip` from `ffmpeg/export.rs` (times in seconds, as `ℚ`). -/
structure ExportClip where
  file_path : String
  start_time : ℚ
  duration : ℚ
  trim_start : ℚ
  trim_end : ℚ
  track_id : String
  trimmed_file_path : Option String
deriving DecidableEq, Repr

/-- `ExportSettings` from `ffmpeg/export.rs`. -/
structure ExportSettings where
  resolution : String
  quality : String
  format : String
  codec : String
deriving DecidableEq, Repr

/-- Structured stand-ins for the `CommandError` values produced by the
export module (one tag per error site; message text not modelled). -/
inductive ValErr where
  | noClips
  | negativeTrimStart
  | invalidTrimRange
  | trimEndExceedsDuration
  | clipTooShort
  | notChronological
  | overlapping
  | negativeStart
  | invalidDuration
  | emptyTrackId
  | invalidResolution
  | invalidQuality
  | invalidFormat
  | invalidCodec
  | invalidOutputPath
  | outputDirMissing
  | toolFailure
  | ioFailure
deriving DecidableEq, Repr

/-- `validate_trim_data` (export.rs:570): the four ordered checks on a
clip's trim window against the declared source duration. -/
def validateTrimData (trim_start trim_end original_duration : ℚ) :
    Except ValErr Unit :=
  if trim_start < 0 then .error .negativeTrimStart
  else if trim_end ≤ trim_start then .error .invalidTrimRange
  else if original_duration < trim_end then .error .trimEndExceedsDuration
  else if trim_end - trim_start < 0.1 then .error .clipTooShort
  else .ok ()

/-- `needs_trimming` (export.rs:619): 0.01s tolerance on both endpoints. -/
def needsTrimming (trim_start trim_end original_duration : ℚ) : Bool :=
  decide ((0.01 : ℚ) < |trim_start - 0|) ||
  decide ((0.01 : ℚ) < |trim_end - original_duration|)

/-- `calculate_trimmed_duration` (export.rs:630). -/
def calculateTrimmedDuration (trim_start trim_end : ℚ) : ℚ :=
  trim_end - trim_start

/-- Body of the loop in `validate_export_clips_trim_data` (export.rs:635):
each clip is validated with `original_duration := clip.trim_end`
(the MVP simplification noted in the source). -/
def validateClipsTrim : List ExportClip → Except ValErr Unit
  | [] => .ok ()
  | c :: rest => do
    validateTrimData c.trim_start c.trim_end c.trim_end
    validateClipsTrim rest

/-- `validate_export_clips_trim_data` (export.rs:635). -/
def validateExportClipsTrimData (clips : List ExportClip) :
    Except ValErr Unit :=
  if clips.isEmpty then .error .noClips
  else validateClipsTrim clips

/-- Auxiliary for `get_clips_needing_trimming`: indices counted from `i`. -/
def clipsNeedingTrimmingFrom : Nat → List ExportClip → List Nat
  | _, [] => []
  | i, c :: rest =>
    if needsTrimming c.trim_start c.trim_end c.trim_end
    then i :: clipsNeedingTrimmingFrom (i + 1) rest
    else clipsNeedingTrimmingFrom (i + 1) rest

/-- `get_clips_needing_trimming` (export.rs:659): indices of the clips
selected for trimming, with `original_duration := clip.trim_end`. -/
def getClipsNeedingTrimming (clips : List ExportClip) : List Nat :=
  clipsNeedingTrimmingFrom 0 clips

/-- Distinct track ids of a clip list; models the key set of the
`HashMap` grouping used by the validators (iteration order of the map is
arbitrary in the source; only the conjunction over all tracks matters). -/
def trackIds (clips : List ExportClip) : List String :=
  dedupStr (clips.map (fun c => c.track_id))
where
  dedupStr : List String → List String
    | [] => []
    | t :: rest => if t ∈ rest then dedupStr rest else t :: dedupStr rest

/-- Timeline order `a.start_time ≤ b.start_time`; the relation used by the
per-track `sort_by` on `start_time` (`partial_cmp` with the `Equal`
fallback; `ℚ` has no NaN, so the fallback is never taken). -/
def startLe (a b : ExportClip) : Prop := a.start_time ≤ b.start_time

instance : DecidableRel startLe :=
  fun a b => inferInstanceAs (Decidable (a.start_time ≤ b.start_time))

/-- Adjacent-pair overlap scan of one sorted track group
(`check_for_overlapping_clips` inner loop, export.rs:362): fails iff some
clip starts before the previous clip's end. -/
def adjacentOk : List ExportClip → Bool
  | [] => true
  | [_] => true
  | a :: b :: rest =>
    decide (¬ b.start_time < a.start_time + a.duration) &&
    adjacentOk (b :: rest)

/-- `check_for_overlapping_clips` (export.rs:349): group by `track_id`,
sort each group by `start_time`, scan adjacent pairs. -/
def checkForOverlappingClips (clips : List ExportClip) :
    Except ValErr Unit :=
  if (trackIds clips).all (fun t =>
      adjacentOk (List.insertionSort startLe
        (clips.filter (fun c => c.track_id == t))))
  then .ok () else .error .overlapping

/-- Adjacent-pair chronological scan of one track group in input order
(`validate_track_ordering` inner loop, export.rs:403): fails iff some
clip starts before the previous one. -/
def chronoOk : List ExportClip → Bool
  | [] => true
  | [_] => true
  | a :: b :: rest =>
    decide (¬ b.start_time < a.start_time) && chronoOk (b :: rest)

/-- `validate_track_ordering` (export.rs:394): groups by `track_id`
WITHOUT sorting and requires each group to be chronological in the order
the clips were supplied. -/
def validateTrackOrdering (clips : List ExportClip) : Except ValErr Unit :=
  if (trackIds clips).all (fun t =>
      chronoOk (clips.filter (fun c => c.track_id == t)))
  then .ok () else .error .notChronological

/-- Per-clip field checks of `validate_timeline_clips_for_export`
(export.rs:458). -/
def validateClipFields : List ExportClip → Except ValErr Unit
  | [] => .ok ()
  | c :: rest =>
    if c.start_time < 0 then .error .negativeStart
    else if c.duration ≤ 0 then .error .invalidDuration
    else if c.track_id = "" then .error .emptyTrackId
    else validateClipFields rest

/-- `validate_timeline_clips_for_export` (export.rs:444). -/
def validateTimelineClipsForExport (clips : List ExportClip) :
    Except ValErr Unit :=
  if clips.isEmpty then .error .noClips
  else do
    validateTrackOrdering clips
    checkForOverlappingClips clips
    validateClipFields clips

/-- `validate_export_settings` (export.rs:917). -/
def validateExportSettings (s : ExportSettings) : Except ValErr Unit :=
  if ¬ (s.resolution = "source" ∨ s.resolution = "1080p" ∨
        s.resolution = "720p") then .error .invalidResolution
  else if ¬ (s.quality = "high" ∨ s.quality = "medium" ∨
             s.quality = "low") then .error .invalidQuality
  else if s.format ≠ "mp4" then .error .invalidFormat
  else if s.codec ≠ "h264" then .error .invalidCodec
  else .ok ()

/-- Disjointness of the timeline windows
`[start_time, start_time + duration)` of two clips. -/
def clipsDisjoint (a b : ExportClip) : Prop :=
  a.start_time + a.duration ≤ b.start_time ∨
  b.start_time + b.duration ≤ a.start_time

/-- Order-free characterization of the per-track overlap freedom the
overlap validator decides: every two clips on a common track have
disjoint timeline windows. -/
def sameTrackNoOverlap (clips : List ExportClip) : Prop :=
  List.Pairwise (fun a b => a.track_id = b.track_id → clipsDisjoint a b)
    clips

/-- Sort key of `sort_clips_by_track_and_timeline_position`
(export.rs:316): `track_id` ascending, then `start_time` ascending. -/
def clipLeP (a b : ExportClip) : Prop :=
  charsLt a.track_id.data b.track_id.data = true ∨
  (a.track_id = b.track_id ∧ a.start_time ≤ b.start_time)

instance : DecidableRel clipLeP := fun a b =>
  inferInstanceAs (Decidable (_ ∨ _ ∧ _))

/-- `sort_clips_by_track_and_timeline_position` (export.rs:316); the
stable `Vec::sort_by` is modelled by the stable `insertionSort`. -/
def sortClipsByTrackAndTimelinePosition (clips : List ExportClip) :
    List ExportClip :=
  List.insertionSort clipLeP clips

/-- Manifest entry for one clip (`generate_concat_file_with_tracking`,
export.rs:293): the trimmed artifact when present, else the original
file.  The literal manifest line wraps this path in a
quoted `file ...` directive; only the referenced path is modelled. -/
def concatEntry (c : ExportClip) : String :=
  c.trimmed_file_path.getD c.file_path

/-- Manifest entry list of `generate_concat_file_with_tracking`
(export.rs:280): one entry per clip, in sorted order. -/
def generateConcatEntries (clips : List ExportClip) : List String :=
  (sortClipsByTrackAndTimelinePosition clips).map concatEntry

/-- Rust saturating `f64 as u64` cast (negative to 0, above `u64::MAX`
to `u64::MAX`, otherwise truncation toward zero). -/
def castU64 (x : ℚ) : ℕ :=
  min (Int.toNat ⌊x⌋) (2 ^ 64 - 1)

/-- Total of the clips' `duration` fields, as computed by both
estimators (export.rs:975, export.rs:1012). -/
def totalClipDuration (clips : List ExportClip) : ℚ :=
  (clips.map (fun c => c.duration)).sum

/-- Resolution factor of `estimate_export_time` (export.rs:980). -/
def resolutionMultiplier (s : ExportSettings) : ℚ :=
  if s.resolution = "1080p" then 1.2
  else if s.resolution = "720p" then 0.8
  else 1

/-- Quality factor of `estimate_export_time` (export.rs:986). -/
def qualityMultiplier (s : ExportSettings) : ℚ :=
  if s.quality = "high" then 1.5
  else if s.quality = "medium" then 1
  else if s.quality = "low" then 0.7
  else 1

/-- `estimate_export_time` (export.rs:974). -/
def estimateExportTime (clips : List ExportClip) (s : ExportSettings) : ℚ :=
  totalClipDuration clips * 0.1 *
    (resolutionMultiplier s * qualityMultiplier s)

/-- Base bitrate of `estimate_export_size` (export.rs:1015). -/
def baseBitrate (s : ExportSettings) : ℕ :=
  if s.resolution = "1080p" then 8000000
  else if s.resolution = "720p" then 3000000
  else 5000000

/-- Quality-scaled bitrate of `estimate_export_size` (export.rs:1021). -/
def exportBitrate (s : ExportSettings) : ℕ :=
  if s.quality = "high" then castU64 ((baseBitrate s : ℚ) * 1.5)
  else if s.quality = "medium" then baseBitrate s
  else if s.quality = "low" then castU64 ((baseBitrate s : ℚ) * 0.7)
  else baseBitrate s

/-- `estimate_export_size` (export.rs:1011): bytes, truncated to `u64`. -/
def estimateExportSize (clips : List ExportClip) (s : ExportSettings) : ℕ :=
  castU64 (totalClipDuration clips * (exportBitrate s : ℚ) / 8)

/-- `TempFileTracker` (export.rs:1079): registration order is kept. -/
structure TempFileTracker where
  files : List String
  directories : List String
deriving DecidableEq, Repr

/-- `TempFileTracker::new` (export.rs:1086). -/
def TempFileTracker.new : TempFileTracker := ⟨[], []⟩

/-- `TempFileTracker::add_file` (export.rs:1094). -/
def TempFileTracker.addFile (t : TempFileTracker) (p : String) :
    TempFileTracker :=
  { t with files := t.files ++ [p] }

/-- `TempFileTracker::add_directory` (export.rs:1099). -/
def TempFileTracker.addDirectory (t : TempFileTracker) (p : String) :
    TempFileTracker :=
  { t with directories := t.directories ++ [p] }

/-- Filesystem state for the cleanup model: the paths that exist and the
paths whose deletion the environment makes fail (`remove_file` /
`remove_dir_all` returning `Err`). -/
structure FsState where
  present : List String
  failing : List String
deriving DecidableEq, Repr

/-- One deletion attempt (`std::fs::remove_file` or
`std::fs::remove_dir_all`, whose failure the source only logs): if the
environment makes this path's deletion fail, the filesystem is
unchanged; otherwise the path is removed.  `remove_dir_all` is modelled
as removing the single tracked directory entry. -/
def removePath (fs : FsState) (p : String) : FsState :=
  if p ∈ fs.failing then fs
  else { fs with present := fs.present.filter (fun q => decide (q ≠ p)) }

/-- One iteration of the cleanup loops of `cleanup_all`
(export.rs:1106, export.rs:1116): attempt deletion only when the path
exists; a failed deletion never aborts the remaining iterations. -/
def cleanupStep (fs : FsState) (p : String) : FsState :=
  if p ∈ fs.present then removePath fs p else fs

/-- `TempFileTracker::cleanup_all` (export.rs:1104): delete every
tracked file in registration order, then every tracked directory in
reverse registration order; always returns `Ok(())`. -/
def TempFileTracker.cleanupAll (t : TempFileTracker) (fs : FsState) :
    Except ValErr FsState :=
  .ok ((t.directories.reverse).foldl cleanupStep (t.files.foldl cleanupStep fs))

/-- Environment of one export attempt: prescribes the outcome of the
output-directory probe, of each successive trim subprocess invocation,
of the manifest write, and of the final encode subprocess. -/
structure Env where
  outputPathHasParent : Bool
  outputDirExists : Bool
  trimFails : Nat → Bool
  concatWriteFails : Bool
  encodeSpawnFails : Bool
  encodeExitFails : Bool

/-- Trace of the effectful steps of one export attempt, in order:
registration of a temp resource with the tracker, a subprocess
invocation, and a `cleanup_all` call (carrying the paths it attempts to
delete, files first then directories in reverse order). -/
inductive Event where
  | registerTemp (path : String)
  | spawn
  | cleanup (paths : List String)
deriving DecidableEq, Repr

/-- Paths a `cleanup_all` call on tracker `t` attempts to delete, in
deletion order. -/
def cleanupPaths (t : TempFileTracker) : List String :=
  t.files ++ t.directories.reverse

/-- Lower-cased extension of a file path, defaulting to `mp4`
(`get_file_extension`, export.rs:806; path-component subtleties of
`Path::extension` are not modelled — the value only feeds the generated
temp file name). -/
def getFileExtension (p : String) : String :=
  let revExt := p.data.reverse.takeWhile (fun c => ! (c == '.'))
  if revExt.length = p.data.length then "mp4"
  else String.mk (revExt.reverse.map Char.toLower)

/-- Generated unique temp file name
(`create_temp_file_path` / `generate_unique_temp_filename`,
export.rs:781): the timestamp+nanosecond uniqueness device is modelled
by a per-attempt counter `n`. -/
def tempFileName (pfx ext : String) (n : Nat) : String :=
  pfx ++ "_" ++ toString n ++ "." ++ ext

/-- `create_and_track_temp_file` (export.rs:1145): allocate a fresh temp
path and register it with the tracker before it is used. -/
def createAndTrackTempFile (t : TempFileTracker) (pfx ext : String) :
    String × TempFileTracker :=
  let p := tempFileName pfx ext (t.files.length + t.directories.length)
  (p, t.addFile p)

/-- Replacement clip built after a successful trim
(`trim_clips_for_export_with_tracking`, export.rs:893): duration becomes
the trimmed length, the trim window is reset to `[0, duration]`, and
both `file_path` and `trimmed_file_path` reference the new artifact. -/
def trimmedReplacement (c : ExportClip) (p : String) : ExportClip :=
  { file_path := p
    start_time := c.start_time
    duration := calculateTrimmedDuration c.trim_start c.trim_end
    trim_start := 0
    trim_end := calculateTrimmedDuration c.trim_start c.trim_end
    track_id := c.track_id
    trimmed_file_path := some p }

/-- Loop of `trim_clips_for_export_with_tracking` (export.rs:874) over
the remaining clips: `i` is the absolute index of the head clip,
`needIdx` the precomputed selection (`get_clips_needing_trimming`),
`sp` the count of trim subprocesses already invoked (indexing
`env.trimFails`).  A failed trim invocation aborts the loop and
propagates the error without any cleanup. -/
def trimLoop (env : Env) (needIdx : List Nat) :
    Nat → List ExportClip → TempFileTracker → Nat →
    Except ValErr (List ExportClip) × TempFileTracker × List Event
  | _, [], tr, _ => (.ok [], tr, [])
  | i, c :: rest, tr, sp =>
    if i ∈ needIdx then
      let pt := createAndTrackTempFile tr "trimmed_clip"
        (getFileExtension c.file_path)
      if env.trimFails sp then
        (.error .toolFailure, pt.2, [.registerTemp pt.1, .spawn])
      else
        match trimLoop env needIdx (i + 1) rest pt.2 (sp + 1) with
        | (r, tr2, ev) =>
          (r.map (fun out => trimmedReplacement c pt.1 :: out), tr2,
           .registerTemp pt.1 :: .spawn :: ev)
    else
      match trimLoop env needIdx (i + 1) rest tr sp with
      | (r, tr2, ev) => (r.map (fun out => c :: out), tr2, ev)

/-- `trim_clips_for_export_with_tracking` (export.rs:866). -/
def trimClipsForExportWithTracking (env : Env) (clips : List ExportClip)
    (tr : TempFileTracker) :
    Except ValErr (List ExportClip) × TempFileTracker × List Event :=
  trimLoop env (getClipsNeedingTrimming clips) 0 clips tr 0

/-- `generate_concat_file_with_tracking` (export.rs:280): allocate and
register a tracked manifest path, compute the sorted entry list, and
write it (the write may fail with an IO error, which propagates without
cleanup). -/
def generateConcatFileWithTracking (env : Env) (clips : List ExportClip)
    (tr : TempFileTracker) :
    Except ValErr String × TempFileTracker × List Event :=
  let pt := createAndTrackTempFile tr "concat" "txt"
  let _entries := generateConcatEntries clips
  if env.concatWriteFails then
    (.error .ioFailure, pt.2, [.registerTemp pt.1])
  else (.ok pt.1, pt.2, [.registerTemp pt.1])

/-- `export_video_internal` (export.rs:198): trim stage, manifest stage,
final encode.  Cleanup runs when the encode exits non-zero and on
success; trim-stage errors, manifest-write errors and encode spawn
errors propagate via `?` without running cleanup. -/
def exportVideoInternal (env : Env) (clips : List ExportClip) :
    Except ValErr Unit × TempFileTracker × List Event :=
  match trimClipsForExportWithTracking env clips TempFileTracker.new with
  | (.error e, tr, ev) => (.error e, tr, ev)
  | (.ok trimmed, tr, ev) =>
    match generateConcatFileWithTracking env trimmed tr with
    | (.error e, tr2, ev2) => (.error e, tr2, ev ++ ev2)
    | (.ok _path, tr2, ev2) =>
      if env.encodeSpawnFails then
        (.error .toolFailure, tr2, ev ++ ev2 ++ [.spawn])
      else if env.encodeExitFails then
        (.error .toolFailure, tr2,
         ev ++ ev2 ++ [.spawn, .cleanup (cleanupPaths tr2)])
      else (.ok (), tr2, ev ++ ev2 ++ [.spawn, .cleanup (cleanupPaths tr2)])

/-- `export_video` (export.rs:74): the validations run before
`export_video_internal`; a validation failure is a `CommandResult`
error, while an internal failure yields `Ok` with `success:false`
(modelled as `.ok false`). -/
def exportVideo (env : Env) (clips : List ExportClip) :
    Except ValErr Bool × List Event :=
  if clips.isEmpty then (.error .noClips, [])
  else match validateExportClipsTrimData clips with
  | .error e => (.error e, [])
  | .ok () =>
    match validateTimelineClipsForExport clips with
    | .error e => (.error e, [])
    | .ok () =>
      if ¬ env.outputPathHasParent then (.error .invalidOutputPath, [])
      else if ¬ env.outputDirExists then (.error .outputDirMissing, [])
      else match exportVideoInternal env clips with
        | (.ok (), _, ev) => (.ok true, ev)
        | (.error _, _, ev) => (.ok false, ev)

/-- `export_timeline` (commands/export.rs:75): validates the settings,
then delegates to `export_video` (the clip conversion sets
`trimmed_file_path := none`, which the caller-supplied clips already
carry in this model). -/
def exportTimeline (env : Env) (settings : ExportSettings)
    (clips : List ExportClip) : Except ValErr Bool × List Event :=
  match validateExportSettings settings with
  | .error e => (.error e, [])
  | .ok () => exportVideo env clips

/-- `ExportProgress` (export.rs:48); the `time` field keeps the parsed
`(hours, minutes, seconds, centiseconds)` of the matched
`HH:MM:SS.hh` capture. -/
structure ExportProgress where
  progress : ℚ
  current_step : String
  estimated_time_remaining : ℚ
  error : Option String
  current_frame : Option Nat
  total_frames : Option Nat
  fps : Option ℚ
  bitrate : Option ℚ
  time : Option (Nat × Nat × Nat × Nat)
deriving DecidableEq, Repr

/-- ASCII decimal digit. -/
def isDigitChar (c : Char) : Bool :=
  decide (48 ≤ c.toNat) && decide (c.toNat ≤ 57)

/-- Value of an ASCII digit. -/
def digitVal (c : Char) : Nat := c.toNat - 48

/-- Whitespace, for the `\s*` gaps of the progress patterns (the source
output only ever contains spaces there; ASCII whitespace modelled). -/
def isSpaceChar (c : Char) : Bool :=
  c == ' ' || c == '\t' || c == '\n' || c == '\r'

/-- Character class `[\d.]` of the `fps`/`bitrate`/`speed` captures. -/
def isDigitDot (c : Char) : Bool := isDigitChar c || c == '.'

/-- Match a literal key at the head of the input, returning the rest. -/
def matchKeyAt : List Char → List Char → Option (List Char)
  | [], rest => some rest
  | _ :: _, [] => none
  | k :: ks, c :: cs => if c == k then matchKeyAt ks cs else none

/-- Decimal digit run to a natural number. -/
def natOfDigits (ds : List Char) : Nat :=
  ds.foldl (fun n c => 10 * n + digitVal c) 0

/-- Rust `str::parse::<f64>` on a captured `[\d.]+` run, modelled
exactly over `ℚ`: optional integer digits, at most one dot, optional
fraction digits, at least one digit overall; anything else fails. -/
def parseDecimal (cs : List Char) : Option ℚ :=
  let intPart := cs.takeWhile isDigitChar
  match cs.drop intPart.length with
  | [] => if intPart.isEmpty then none else some (natOfDigits intPart : ℚ)
  | c :: rest =>
    if c == '.' then
      let fracPart := rest.takeWhile isDigitChar
      if (rest.drop fracPart.length).isEmpty then
        if intPart.isEmpty && fracPart.isEmpty then none
        else some ((natOfDigits intPart : ℚ) +
          (natOfDigits fracPart : ℚ) / (10 ^ fracPart.length : ℕ))
      else none
    else none

/-- Match the regex `time=(\d{2}:\d{2}:\d{2}\.\d{2})` at the head of the
input (export.rs:1296), returning hours, minutes, seconds and
centiseconds. -/
def matchTimeAt : List Char → Option (Nat × Nat × Nat × Nat)
  | 't' :: 'i' :: 'm' :: 'e' :: '=' :: h1 :: h2 :: ':' :: m1 :: m2 :: ':'
      :: s1 :: s2 :: '.' :: f1 :: f2 :: _ =>
    if isDigitChar h1 && isDigitChar h2 && isDigitChar m1 &&
       isDigitChar m2 && isDigitChar s1 && isDigitChar s2 &&
       isDigitChar f1 && isDigitChar f2 then
      some (10 * digitVal h1 + digitVal h2,
            10 * digitVal m1 + digitVal m2,
            10 * digitVal s1 + digitVal s2,
            10 * digitVal f1 + digitVal f2)
    else none
  | _ => none

/-- Leftmost match of the elapsed-time pattern in a line. -/
def findTime : List Char → Option (Nat × Nat × Nat × Nat)
  | [] => none
  | c :: rest =>
    match matchTimeAt (c :: rest) with
    | some r => some r
    | none => findTime rest

/-- Match `frame=\s*(\d+)` at the head of the input: the key, optional
whitespace, then a maximal nonempty digit run (the capture). -/
def matchFrameAt (cs : List Char) : Option (List Char) :=
  match matchKeyAt ("frame=".data) cs with
  | none => none
  | some rest =>
    let r1 := rest.dropWhile isSpaceChar
    let cap := r1.takeWhile isDigitChar
    if cap.isEmpty then none else some cap

/-- Match `fps=\s*([\d.]+)` at the head of the input. -/
def matchFpsAt (cs : List Char) : Option (List Char) :=
  match matchKeyAt ("fps=".data) cs with
  | none => none
  | some rest =>
    let r1 := rest.dropWhile isSpaceChar
    let cap := r1.takeWhile isDigitDot
    if cap.isEmpty then none else some cap

/-- Match `bitrate=\s*([\d.]+)\s*kbits/s` at the head of the input: the
maximal `[\d.]` run must be followed (after whitespace) by the literal
unit. -/
def matchBitrateAt (cs : List Char) : Option (List Char) :=
  match matchKeyAt ("bitrate=".data) cs with
  | none => none
  | some rest =>
    let r1 := rest.dropWhile isSpaceChar
    let cap := r1.takeWhile isDigitDot
    if cap.isEmpty then none
    else
      let r2 := (r1.drop cap.length).dropWhile isSpaceChar
      match matchKeyAt ("kbits/s".data) r2 with
      | some _ => some cap
      | none => none

/-- Match `speed=\s*([\d.]+)x` at the head of the input: the maximal
`[\d.]` run must be followed by the literal `x`. -/
def matchSpeedAt (cs : List Char) : Option (List Char) :=
  match matchKeyAt ("speed=".data) cs with
  | none => none
  | some rest =>
    let r1 := rest.dropWhile isSpaceChar
    let cap := r1.takeWhile isDigitDot
    if cap.isEmpty then none
    else
      match (r1.drop cap.length).head? with
      | some c => if c == 'x' then some cap else none
      | none => none

/-- Leftmost syntactic match of a capture pattern in a line. -/
def findCapture (matchAt : List Char → Option (List Char)) :
    List Char → Option (List Char)
  | [] => none
  | c :: rest =>
    match matchAt (c :: rest) with
    | some cap => some cap
    | none => findCapture matchAt rest

/-- `frame` telemetry of a line: leftmost match, parsed as `u64`
(overflow makes the parse fail, as `str::parse::<u64>` does). -/
def findFrame (cs : List Char) : Option Nat :=
  (findCapture matchFrameAt cs).bind fun cap =>
    let n := natOfDigits cap
    if n < 2 ^ 64 then some n else none

/-- `fps` telemetry of a line: leftmost match, parsed as a decimal. -/
def findFps (cs : List Char) : Option ℚ :=
  (findCapture matchFpsAt cs).bind parseDecimal

/-- `bitrate` telemetry of a line: leftmost match, parsed as a decimal. -/
def findBitrate (cs : List Char) : Option ℚ :=
  (findCapture matchBitrateAt cs).bind parseDecimal

/-- `speed` telemetry of a line: leftmost match, parsed as a decimal. -/
def findSpeed (cs : List Char) : Option ℚ :=
  (findCapture matchSpeedAt cs).bind parseDecimal

/-- Seconds represented by a matched `HH:MM:SS.hh` capture, as computed
by `parse_time_to_seconds` (export.rs:1368): `h*3600 + m*60 + s`, with
`s` carrying the fractional part. -/
def timeValue (h m s f : Nat) : ℚ :=
  (h : ℚ) * 3600 + (m : ℚ) * 60 + ((s : ℚ) + (f : ℚ) / 100)

/-- `parse_ffmpeg_progress` (export.rs:1292): returns a progress update
iff the elapsed-time pattern matches somewhere in the line
(`parse_time_to_seconds` cannot fail on a matched capture). -/
def parseFfmpegProgress (line : String) (total_duration : ℚ) :
    Option ExportProgress :=
  let cs := line.data
  match findTime cs with
  | none => none
  | some (h, m, s, f) =>
    let t := timeValue h m s f
    let progress : ℚ :=
      if 0 < total_duration then min (t / total_duration * 100) 100 else 0
    let est : ℚ :=
      match findSpeed cs with
      | some sp => if 0 < sp then (total_duration - t) / sp else 0
      | none => 0
    some { progress := progress
           current_step := "Exporting"
           estimated_time_remaining := est
           error := none
           current_frame := findFrame cs
           total_frames := none
           fps := findFps cs
           bitrate := findBitrate cs
           time := some (h, m, s, f) }

/-- Concrete clip used by explicit counterexamples and witnesses: placed
late on track `t1` (start 10s, duration 5s), untrimmed. -/
def lateClip : ExportClip :=
  { file_path := "a.mp4", start_time := 10, duration := 5,
    trim_start := 0, trim_end := 5, track_id := "t1",
    trimmed_file_path := none }

/-- Concrete clip used by explicit counterexamples and witnesses: placed
early on track `t1` (start 0s, duration 5s), untrimmed. -/
def earlyClip : ExportClip :=
  { file_path := "b.mp4", start_time := 0, duration := 5,
    trim_start := 0, trim_end := 5, track_id := "t1",
    trimmed_file_path := none }

/-- Concrete clip overlapping `earlyClip` on the same track. -/
def midClip : ExportClip :=
  { file_path := "c.mp4", start_time := 3, duration := 5,
    trim_start := 0, trim_end := 5, track_id := "t1",
    trimmed_file_path := none }

/-- `midClip` moved to a different track. -/
def midClipOtherTrack : ExportClip :=
  { file_path := "c.mp4", start_time := 3, duration := 5,
    trim_start := 0, trim_end := 5, track_id := "t2",
    trimmed_file_path := none }

/-- Environment where every external step succeeds. -/
def allOkEnv : Env :=
  { outputPathHasParent := true, outputDirExists := true,
    trimFails := fun _ => false, concatWriteFails := false,
    encodeSpawnFails := false, encodeExitFails := false }

/-- Environment where the first (and every) trim subprocess fails. -/
def trimFailEnv : Env :=
  { allOkEnv with trimFails := fun _ => true }

/-- Environment where only the final encode exits non-zero. -/
def encodeFailEnv : Env :=
  { allOkEnv with encodeExitFails := true }

/-- Concrete clip whose trim window starts at 2s, so it is selected for
trimming. -/
def trimNeedClip : ExportClip :=
  { file_path := "a.mp4", start_time := 0, duration := 3,
    trim_start := 2, trim_end := 5, track_id := "t1",
    trimmed_file_path := none }

/-- Settings with an unsupported resolution. -/
def badSettings : ExportSettings :=
  { resolution := "480p", quality := "high", format := "mp4",
    codec := "h264" }

/-- Well-formed settings. -/
def goodSettings : ExportSettings :=
  { resolution := "source", quality := "medium", format := "mp4",
    codec := "h264" }

/-- A representative FFmpeg progress line (the one used by the
source's own parser test). -/
def demoLine : String :=
  "frame= 1234 fps=30.0 q=23.0 size=   10240kB time=00:00:41.13 bitrate=2048.0kbits/s speed=1.0x"

/-! ## Estimator monotonicity (C10) -/

theorem resolutionMultiplier_nonneg (s : ExportSettings) :
    0 ≤ resolutionMultiplier s := by
  unfold resolutionMultiplier; split_ifs <;> norm_num

theorem qualityMultiplier_nonneg (s : ExportSettings) :
    0 ≤ qualityMultiplier s := by
  unfold qualityMultiplier; split_ifs <;> norm_num

theorem castU64_mono {x y : ℚ} (h : x ≤ y) : castU64 x ≤ castU64 y := by
  unfold castU64
  exact min_le_min (Int.toNat_le_toNat (Int.floor_mono h)) le_rfl

/-- C10: for fixed export settings, `estimate_export_time` and
`estimate_export_size` are monotonically non-decreasing in the total
clip duration. -/
theorem estimates_monotone (s : ExportSettings) (c₁ c₂ : List ExportClip)
    (h : totalClipDuration c₁ ≤ totalClipDuration c₂) :
    estimateExportTime c₁ s ≤ estimateExportTime c₂ s ∧
    estimateExportSize c₁ s ≤ estimateExportSize c₂ s := by
  constructor
  · unfold estimateExportTime
    exact mul_le_mul_of_nonneg_right
      (mul_le_mul_of_nonneg_right h (by norm_num))
      (mul_nonneg (resolutionMultiplier_nonneg s)
        (qualityMultiplier_nonneg s))
  · unfold estimateExportSize
    refine castU64_mono ?_
    refine (div_le_div_iff_of_pos_right (by norm_num : (0:ℚ) < 8)).mpr ?_
    exact mul_le_mul_of_nonneg_right h (Nat.cast_nonneg _)

/-- Witness for C10 at a concrete pair of clip collections. -/
theorem estimates_monotone_witness :
    totalClipDuration [] ≤
      totalClipDuration
        [{ file_path := "a.mp4", start_time := 0, duration := 10,
           trim_start := 0, trim_end := 10, track_id := "t1",
           trimmed_file_path := none }] ∧
    estimateExportTime []
        ⟨"source", "medium", "mp4", "h264"⟩ ≤
      estimateExportTime
        [{ file_path := "a.mp4", start_time := 0, duration := 10,
           trim_start := 0, trim_end := 10, track_id := "t1",
           trimmed_file_path := none }]
        ⟨"source", "medium", "mp4", "h264"⟩ ∧
    estimateExportSize []
        ⟨"source", "medium", "mp4", "h264"⟩ ≤
      estimateExportSize
        [{ file_path := "a.mp4", start_time := 0, duration := 10,
           trim_start := 0, trim_end := 10, track_id := "t1",
           trimmed_file_path := none }]
        ⟨"source", "medium", "mp4", "h264"⟩ := by
  have h : totalClipDuration ([] : List ExportClip) ≤
      totalClipDuration
        [{ file_path := "a.mp4", start_time := 0, duration := 10,
           trim_start := 0, trim_end := 10, track_id := "t1",
           trimmed_file_path := none }] := by
    norm_num [totalClipDuration]
  exact ⟨h, estimates_monotone ⟨"source", "medium", "mp4", "h264"⟩ _ _ h⟩

/-! ## The trim-end/source-duration identification (C9) -/

theorem validateTrimData_ne_exceeds (ts te : ℚ) :
    validateTrimData ts te te ≠ .error .trimEndExceedsDuration := by
  unfold validateTrimData
  split_ifs <;> simp_all

theorem validateClipsTrim_ne_exceeds :
    ∀ clips, validateClipsTrim clips ≠ .error .trimEndExceedsDuration
  | [] => by simp [validateClipsTrim]
  | c :: rest => by
    unfold validateClipsTrim
    cases hv : validateTrimData c.trim_start c.trim_end c.trim_end with
    | error e =>
      have : e ≠ .trimEndExceedsDuration := by
        intro h; subst h
        exact validateTrimData_ne_exceeds c.trim_start c.trim_end hv
      simpa [hv, Bind.bind, Except.bind] using this
    | ok u =>
      cases u
      simpa [hv, Bind.bind, Except.bind] using
        validateClipsTrim_ne_exceeds rest

theorem validateClipsTrim_nonneg_start :
    ∀ clips, validateClipsTrim clips = .ok () →
      ∀ c ∈ clips, 0 ≤ c.trim_start
  | [], _, c, hc => absurd hc (List.not_mem_nil c)
  | c0 :: rest, h, c, hc => by
    unfold validateClipsTrim at h
    cases hv : validateTrimData c0.trim_start c0.trim_end c0.trim_end with
    | error e =>
      rw [hv] at h
      exact absurd h (by simp [Bind.bind, Except.bind])
    | ok u =>
      cases u
      rw [hv] at h
      simp only [Bind.bind, Except.bind] at h
      rcases List.mem_cons.mp hc with rfl | hmem
      · unfold validateTrimData at hv
        split_ifs at hv with h1 h2 h3 h4 <;> simp_all [not_lt]
      · exact validateClipsTrim_nonneg_start rest (by simpa using h) c hmem

theorem mem_clipsNeedingTrimmingFrom :
    ∀ (clips : List ExportClip) (n j : Nat),
      j ∈ clipsNeedingTrimmingFrom n clips ↔
        ∃ c, n ≤ j ∧ clips.get? (j - n) = some c ∧
          needsTrimming c.trim_start c.trim_end c.trim_end = true
  | [], n, j => by simp [clipsNeedingTrimmingFrom]
  | c0 :: rest, n, j => by
    unfold clipsNeedingTrimmingFrom
    by_cases hc : needsTrimming c0.trim_start c0.trim_end c0.trim_end = true
    · rw [if_pos hc]
      simp only [List.mem_cons, mem_clipsNeedingTrimmingFrom rest (n + 1) j]
      constructor
      · rintro (rfl | ⟨c, hle, hget, hneed⟩)
        · exact ⟨c0, le_rfl, by simp, hc⟩
        · refine ⟨c, by omega, ?_, hneed⟩
          have : j - n = (j - (n + 1)) + 1 := by omega
          simpa [this] using hget
      · rintro ⟨c, hle, hget, hneed⟩
        rcases Nat.eq_or_lt_of_le hle with rfl | hlt
        · left; rfl
        · right
          refine ⟨c, by omega, ?_, hneed⟩
          have : j - n = (j - (n + 1)) + 1 := by omega
          rw [this] at hget
          simpa using hget
    · rw [if_neg hc]
      rw [mem_clipsNeedingTrimmingFrom rest (n + 1) j]
      constructor
      · rintro ⟨c, hle, hget, hneed⟩
        refine ⟨c, by omega, ?_, hneed⟩
        have : j - n = (j - (n + 1)) + 1 := by omega
        simpa [this] using hget
      · rintro ⟨c, hle, hget, hneed⟩
        rcases Nat.eq_or_lt_of_le hle with rfl | hlt
        · rw [Nat.sub_self] at hget
          simp only [List.get?_cons_zero, Option.some.injEq] at hget
          subst hget
          exact absurd hneed hc
        · refine ⟨c, by omega, ?_, hneed⟩
          have : j - n = (j - (n + 1)) + 1 := by omega
          rw [this] at hget
          simpa using hget

theorem needsTrimming_self (ts te : ℚ) :
    needsTrimming ts te te = decide ((0.01 : ℚ) < |ts - 0|) := by
  unfold needsTrimming
  have h2 : decide ((0.01 : ℚ) < |te - te|) = false :=
    decide_eq_false (by norm_num)
  rw [h2, Bool.or_false]

/-- C9: inside the export pipeline the source duration handed to the
trim decision and to trim validation is the clip's own `trim_end`, so
the trim-end/duration gap is identically zero: the
exceeds-source-duration check of `validate_trim_data` can never fail,
and a validated clip is selected for trimming exactly when its
`trim_start` exceeds the 0.01s tolerance. -/
theorem trim_uses_trim_end_as_duration :
    (∀ clips, validateExportClipsTrimData clips ≠
        .error .trimEndExceedsDuration) ∧
    (∀ ts te : ℚ, needsTrimming ts te te =
        decide ((0.01 : ℚ) < |ts - 0|)) ∧
    (∀ clips, validateExportClipsTrimData clips = .ok () →
      ∀ j c, clips.get? j = some c →
        (j ∈ getClipsNeedingTrimming clips ↔
          (0.01 : ℚ) < c.trim_start)) := by
  refine ⟨?_, needsTrimming_self, ?_⟩
  · intro clips
    unfold validateExportClipsTrimData
    split_ifs
    · simp
    · exact validateClipsTrim_ne_exceeds clips
  · intro clips h j c hget
    have hok : validateClipsTrim clips = .ok () := by
      unfold validateExportClipsTrimData at h
      split_ifs at h
      exact h
    have hpos : 0 ≤ c.trim_start :=
      validateClipsTrim_nonneg_start clips hok c (List.get?_mem hget)
    rw [getClipsNeedingTrimming, mem_clipsNeedingTrimmingFrom]
    constructor
    · rintro ⟨c', _, hget', hneed⟩
      rw [Nat.sub_zero, hget] at hget'
      obtain rfl : c = c' := by simpa using hget'
      rw [needsTrimming_self] at hneed
      have := of_decide_eq_true hneed
      rwa [sub_zero, abs_of_nonneg hpos] at this
    · intro hlt
      refine ⟨c, Nat.zero_le j, by simpa using hget, ?_⟩
      rw [needsTrimming_self]
      refine decide_eq_true ?_
      rwa [sub_zero, abs_of_nonneg hpos]

/-- Witness for C9 on a concrete validated clip list. -/
theorem trim_uses_trim_end_as_duration_witness :
    validateExportClipsTrimData
        [{ file_path := "a.mp4", start_time := 0, duration := 3,
           trim_start := 2, trim_end := 5, track_id := "t1",
           trimmed_file_path := none }] = .ok () ∧
    (0 ∈ getClipsNeedingTrimming
        [{ file_path := "a.mp4", start_time := 0, duration := 3,
           trim_start := 2, trim_end := 5, track_id := "t1",
           trimmed_file_path := none }] ↔
      (0.01 : ℚ) < 2) := by
  have hval : validateExportClipsTrimData
      [{ file_path := "a.mp4", start_time := 0, duration := 3,
         trim_start := 2, trim_end := 5, track_id := "t1",
         trimmed_file_path := none }] = .ok () := by
    norm_num [validateExportClipsTrimData, validateClipsTrim,
      validateTrimData, Bind.bind, Except.bind]
  exact ⟨hval,
    trim_uses_trim_end_as_duration.2.2 _ hval 0 _ rfl⟩

/-! ## Tracker cleanup (C6) -/

theorem cleanupStep_failing (fs : FsState) (p : String) :
    (cleanupStep fs p).failing = fs.failing := by
  unfold cleanupStep removePath
  split_ifs <;> rfl

theorem foldl_cleanupStep_failing (ps : List String) :
    ∀ fs, (ps.foldl cleanupStep fs).failing = fs.failing := by
  induction ps with
  | nil => intro fs; rfl
  | cons p ps ih =>
    intro fs
    rw [List.foldl_cons, ih, cleanupStep_failing]

theorem mem_cleanupStep (fs : FsState) (p q : String) :
    q ∈ (cleanupStep fs p).present ↔
      q ∈ fs.present ∧ (q ∈ fs.failing ∨ q ≠ p) := by
  unfold cleanupStep removePath
  by_cases hp : p ∈ fs.present
  · rw [if_pos hp]
    by_cases hf : p ∈ fs.failing
    · rw [if_pos hf]
      constructor
      · intro hq
        refine ⟨hq, ?_⟩
        by_cases hqp : q = p
        · subst hqp; exact Or.inl hf
        · exact Or.inr hqp
      · exact fun h => h.1
    · rw [if_neg hf]
      simp only [List.mem_filter, decide_eq_true_eq]
      constructor
      · rintro ⟨h1, h2⟩; exact ⟨h1, Or.inr h2⟩
      · rintro ⟨h1, h2 | h2⟩
        · refine ⟨h1, ?_⟩; rintro rfl; exact hf h2
        · exact ⟨h1, h2⟩
  · rw [if_neg hp]
    constructor
    · intro hq
      refine ⟨hq, ?_⟩
      by_cases hqp : q = p
      · subst hqp; exact absurd hq hp
      · exact Or.inr hqp
    · exact fun h => h.1

theorem mem_foldl_cleanupStep (ps : List String) :
    ∀ fs q, q ∈ (ps.foldl cleanupStep fs).present ↔
      q ∈ fs.present ∧ (q ∈ fs.failing ∨ q ∉ ps) := by
  induction ps with
  | nil => intro fs q; simp
  | cons p ps ih =>
    intro fs q
    rw [List.foldl_cons, ih, cleanupStep_failing, mem_cleanupStep]
    constructor
    · rintro ⟨⟨h1, h2⟩, h3⟩
      refine ⟨h1, ?_⟩
      rcases h3 with h3 | h3
      · exact Or.inl h3
      · rcases h2 with h2 | h2
        · exact Or.inl h2
        · right; simp [h2, h3]
    · rintro ⟨h1, h2⟩
      rcases h2 with h2 | h2
      · exact ⟨⟨h1, Or.inl h2⟩, Or.inl h2⟩
      · simp only [List.mem_cons, not_or] at h2
        exact ⟨⟨h1, Or.inr h2.1⟩, Or.inr h2.2⟩

theorem foldl_cleanupStep_absent (ps : List String) :
    ∀ fs, (∀ p ∈ ps, p ∉ fs.present) → ps.foldl cleanupStep fs = fs := by
  induction ps with
  | nil => intro fs _; rfl
  | cons p ps ih =>
    intro fs h
    rw [List.foldl_cons]
    have hstep : cleanupStep fs p = fs := by
      unfold cleanupStep
      rw [if_neg (h p (List.mem_cons_self p ps))]
    rw [hstep]
    exact ih fs (fun x hx => h x (List.mem_cons_of_mem p hx))

/-- Counterexample to C6 as stated: on a filesystem where the tracked
file's deletion fails, `cleanup_all` still returns success but the
tracked path DOES remain on disk after the call, so a second call does
not find nothing to delete. -/
theorem cleanupAll_not_always_clearing :
    TempFileTracker.cleanupAll ⟨["f"], []⟩ ⟨["f"], ["f"]⟩ =
      .ok ⟨["f"], ["f"]⟩ ∧
    "f" ∈ (TempFileTracker.mk ["f"] []).files ∧
    "f" ∈ (FsState.mk ["f"] ["f"]).present := by
  refine ⟨?_, by simp, by simp⟩
  rfl

/-- C6 (amended): `cleanup_all` always returns success and an
individual deletion failure never aborts the remaining deletions (every
tracked path whose deletion the filesystem does not fail is removed);
when no deletion fails, no tracked path remains on disk after one call,
so a second call finds nothing to delete (it leaves the filesystem
unchanged) and also succeeds. -/
theorem cleanupAll_best_effort (t : TempFileTracker) (fs : FsState) :
    (t.cleanupAll fs).isOk = true ∧
    ∀ fs', t.cleanupAll fs = .ok fs' →
      (∀ p, (p ∈ t.files ∨ p ∈ t.directories) → p ∉ fs.failing →
        p ∉ fs'.present) ∧
      (fs.failing = [] →
        (∀ p, (p ∈ t.files ∨ p ∈ t.directories) → p ∉ fs'.present) ∧
        t.cleanupAll fs' = .ok fs') := by
  constructor
  · rfl
  · intro fs' heq
    have hfs' : fs' =
        (t.directories.reverse).foldl cleanupStep
          (t.files.foldl cleanupStep fs) := by
      unfold TempFileTracker.cleanupAll at heq
      exact (Except.ok.injEq _ _).mp heq.symm
    have hmem : ∀ q, q ∈ fs'.present ↔
        q ∈ fs.present ∧ (q ∈ fs.failing ∨ q ∉ t.files) ∧
          (q ∈ fs.failing ∨ q ∉ t.directories.reverse) := by
      intro q
      rw [hfs', mem_foldl_cleanupStep, mem_foldl_cleanupStep,
        foldl_cleanupStep_failing]
      tauto
    have hclear : ∀ p, (p ∈ t.files ∨ p ∈ t.directories) →
        p ∉ fs.failing → p ∉ fs'.present := by
      intro p hp hfail hpres
      rcases (hmem p).mp hpres with ⟨_, h1, h2⟩
      rcases hp with hp | hp
      · rcases h1 with h1 | h1
        · exact hfail h1
        · exact h1 hp
      · rcases h2 with h2 | h2
        · exact hfail h2
        · exact h2 (List.mem_reverse.mpr hp)
    refine ⟨hclear, ?_⟩
    intro hno
    have hclear' : ∀ p, (p ∈ t.files ∨ p ∈ t.directories) →
        p ∉ fs'.present := by
      intro p hp
      exact hclear p hp (by rw [hno]; exact List.not_mem_nil p)
    refine ⟨hclear', ?_⟩
    unfold TempFileTracker.cleanupAll
    rw [foldl_cleanupStep_absent t.files fs'
        (fun p hp => hclear' p (Or.inl hp)),
      foldl_cleanupStep_absent t.directories.reverse fs'
        (fun p hp => hclear' p (Or.inr (List.mem_reverse.mp hp)))]

/-- Witness for C6 (amended) on a concrete tracker and filesystem. -/
theorem cleanupAll_best_effort_witness :
    (TempFileTracker.cleanupAll ⟨["f"], []⟩ ⟨["f"], []⟩).isOk = true ∧
    "f" ∉ (FsState.mk [] []).present ∧
    TempFileTracker.cleanupAll ⟨["f"], []⟩ ⟨[], []⟩ = .ok ⟨[], []⟩ := by
  have h := cleanupAll_best_effort ⟨["f"], []⟩ ⟨["f"], []⟩
  have heq : TempFileTracker.cleanupAll ⟨["f"], []⟩ ⟨["f"], []⟩ =
      .ok ⟨[], []⟩ := by rfl
  have h2 := (h.2 ⟨[], []⟩ heq).2 rfl
  exact ⟨h.1, h2.1 "f" (Or.inl (by simp)), h2.2⟩

/-! ## Lexicographic order on track ids and the manifest order (C2) -/

theorem charsLt_cons (a b : Char) (as bs : List Char) :
    charsLt (a :: as) (b :: bs) = true ↔
      a < b ∨ (a = b ∧ charsLt as bs = true) := by
  simp [charsLt]

theorem charsLt_trans :
    ∀ {x y z : List Char}, charsLt x y = true → charsLt y z = true →
      charsLt x z = true
  | [], [], _, h1, _ => by simp [charsLt] at h1
  | [], _ :: _, [], _, h2 => by simp [charsLt] at h2
  | [], _ :: _, _ :: _, _, _ => by simp [charsLt]
  | _ :: _, [], _, h1, _ => by simp [charsLt] at h1
  | _ :: _, _ :: _, [], _, h2 => by simp [charsLt] at h2
  | a :: as, b :: bs, c :: cs, h1, h2 => by
    rw [charsLt_cons] at h1 h2 ⊢
    rcases h1 with h1 | ⟨rfl, h1⟩
    · rcases h2 with h2 | ⟨rfl, _⟩
      · exact Or.inl (lt_trans h1 h2)
      · exact Or.inl h1
    · rcases h2 with h2 | ⟨rfl, h2⟩
      · exact Or.inl h2
      · exact Or.inr ⟨rfl, charsLt_trans h1 h2⟩

theorem charsLt_irrefl : ∀ x : List Char, charsLt x x = false
  | [] => rfl
  | a :: as => by
    have := charsLt_irrefl as
    simp [charsLt, this]

theorem charsLt_trichotomy :
    ∀ x y : List Char, charsLt x y = true ∨ x = y ∨ charsLt y x = true
  | [], [] => Or.inr (Or.inl rfl)
  | [], _ :: _ => Or.inl (by simp [charsLt])
  | _ :: _, [] => Or.inr (Or.inr (by simp [charsLt]))
  | a :: as, b :: bs => by
    rcases lt_trichotomy a b with h | rfl | h
    · exact Or.inl ((charsLt_cons a b as bs).mpr (Or.inl h))
    · rcases charsLt_trichotomy as bs with h | rfl | h
      · exact Or.inl ((charsLt_cons a a as bs).mpr (Or.inr ⟨rfl, h⟩))
      · exact Or.inr (Or.inl rfl)
      · exact Or.inr (Or.inr
          ((charsLt_cons a a bs as).mpr (Or.inr ⟨rfl, h⟩)))
    · exact Or.inr (Or.inr ((charsLt_cons b a bs as).mpr (Or.inl h)))

theorem charsLt_asymm {x y : List Char} (h1 : charsLt x y = true)
    (h2 : charsLt y x = true) : False := by
  have := charsLt_trans h1 h2
  rw [charsLt_irrefl x] at this
  exact Bool.false_ne_true this

theorem string_eq_of_data_eq {a b : String} (h : a.data = b.data) :
    a = b := by
  cases a; cases b; exact congrArg String.mk h

theorem clipLeP_total : ∀ a b : ExportClip, clipLeP a b ∨ clipLeP b a := by
  intro a b
  rcases charsLt_trichotomy a.track_id.data b.track_id.data with h | h | h
  · exact Or.inl (Or.inl h)
  · have he : a.track_id = b.track_id := string_eq_of_data_eq h
    rcases le_total a.start_time b.start_time with hle | hle
    · exact Or.inl (Or.inr ⟨he, hle⟩)
    · exact Or.inr (Or.inr ⟨he.symm, hle⟩)
  · exact Or.inr (Or.inl h)

theorem clipLeP_trans :
    ∀ {a b c : ExportClip}, clipLeP a b → clipLeP b c → clipLeP a c := by
  rintro a b c (h1 | ⟨he1, hle1⟩) (h2 | ⟨he2, hle2⟩)
  · exact Or.inl (charsLt_trans h1 h2)
  · exact Or.inl (he2 ▸ h1)
  · exact Or.inl (he1 ▸ h2)
  · exact Or.inr ⟨he1.trans he2, hle1.trans hle2⟩

/-- C2: the concat manifest has exactly one entry per clip — the entry
list is a map over a permutation of the clip collection — the
permutation is sorted by (`track_id` ascending, `start_time` ascending),
and each entry references `trimmed_file_path` when present, else the
original `file_path` (the definition of `concatEntry`). -/
theorem concat_manifest_sorted (clips : List ExportClip) :
    (sortClipsByTrackAndTimelinePosition clips).Perm clips ∧
    List.Pairwise clipLeP (sortClipsByTrackAndTimelinePosition clips) ∧
    generateConcatEntries clips =
      (sortClipsByTrackAndTimelinePosition clips).map concatEntry := by
  refine ⟨List.perm_insertionSort clipLeP clips, ?_, rfl⟩
  haveI : IsTotal ExportClip clipLeP := ⟨clipLeP_total⟩
  haveI : IsTrans ExportClip clipLeP := ⟨fun _ _ _ => clipLeP_trans⟩
  exact List.sorted_insertionSort clipLeP clips

/-! ## Overlap validation characterization (C3, C7) -/

theorem mem_dedupStr : ∀ (l : List String) (x : String),
    x ∈ trackIds.dedupStr l ↔ x ∈ l
  | [], x => by simp [trackIds.dedupStr]
  | t :: rest, x => by
    unfold trackIds.dedupStr
    by_cases ht : t ∈ rest
    · rw [if_pos ht, mem_dedupStr rest x]
      constructor
      · exact fun h => List.mem_cons_of_mem t h
      · intro h
        rcases List.mem_cons.mp h with rfl | h
        · exact ht
        · exact h
    · rw [if_neg ht]
      simp [mem_dedupStr rest x]

theorem mem_trackIds (clips : List ExportClip) (t : String) :
    t ∈ trackIds clips ↔ ∃ c ∈ clips, c.track_id = t := by
  unfold trackIds
  rw [mem_dedupStr]
  simp

theorem pairwise_disjoint_of_adjacentOk :
    ∀ l : List ExportClip, List.Pairwise startLe l →
      adjacentOk l = true → List.Pairwise clipsDisjoint l
  | [], _, _ => List.Pairwise.nil
  | [a], _, _ => by simp
  | a :: b :: rest, hs, ha => by
    have ha' : (¬ b.start_time < a.start_time + a.duration) ∧
        adjacentOk (b :: rest) = true := by
      simpa [adjacentOk] using ha
    have ih := pairwise_disjoint_of_adjacentOk (b :: rest)
      hs.of_cons ha'.2
    refine List.Pairwise.cons ?_ ih
    intro z hz
    have hab : a.start_time + a.duration ≤ b.start_time := not_lt.mp ha'.1
    rcases List.mem_cons.mp hz with rfl | hz'
    · exact Or.inl hab
    · have hbz : startLe b z :=
        (List.pairwise_cons.mp hs.of_cons).1 z hz'
      exact Or.inl (le_trans hab hbz)

theorem adjacentOk_of_pairwise_disjoint :
    ∀ l : List ExportClip, List.Pairwise startLe l →
      (∀ c ∈ l, 0 < c.duration) → List.Pairwise clipsDisjoint l →
      adjacentOk l = true
  | [], _, _, _ => rfl
  | [_], _, _, _ => rfl
  | a :: b :: rest, hs, hd, hp => by
    have hab : clipsDisjoint a b :=
      (List.pairwise_cons.mp hp).1 b (List.mem_cons_self b rest)
    have hsab : startLe a b :=
      (List.pairwise_cons.mp hs).1 b (List.mem_cons_self b rest)
    have hbd : 0 < b.duration := hd b (by simp)
    have h1 : a.start_time + a.duration ≤ b.start_time := by
      rcases hab with h | h
      · exact h
      · exfalso
        have hba : b.start_time + b.duration ≤ b.start_time :=
          le_trans h hsab
        have : b.duration ≤ 0 := by linarith
        linarith
    have ih := adjacentOk_of_pairwise_disjoint (b :: rest) hs.of_cons
      (fun c hc => hd c (List.mem_cons_of_mem a hc)) hp.of_cons
    simp [adjacentOk, ih, not_lt.mpr h1]

theorem checkOverlap_ok_iff_all (clips : List ExportClip) :
    checkForOverlappingClips clips = .ok () ↔
    ∀ t ∈ trackIds clips,
      adjacentOk (List.insertionSort startLe
        (clips.filter (fun c => c.track_id == t))) = true := by
  unfold checkForOverlappingClips
  split_ifs with h
  · exact iff_of_true rfl (List.all_eq_true.mp h)
  · exact iff_of_false (by simp)
      (fun hr => h (List.all_eq_true.mpr hr))

theorem sameTrackNoOverlap_of_checkOverlap (clips : List ExportClip)
    (h : checkForOverlappingClips clips = .ok ()) :
    sameTrackNoOverlap clips := by
  rw [checkOverlap_ok_iff_all] at h
  unfold sameTrackNoOverlap
  rw [List.pairwise_iff_forall_sublist]
  intro a b hsub hts
  have ha : a ∈ clips := hsub.subset (by simp)
  have ht : a.track_id ∈ trackIds clips :=
    (mem_trackIds _ _).mpr ⟨a, ha, rfl⟩
  have hadj := h a.track_id ht
  haveI : IsTotal ExportClip startLe := ⟨fun x y => le_total _ _⟩
  haveI : IsTrans ExportClip startLe := ⟨fun _ _ _ => le_trans⟩
  have hsort : List.Pairwise startLe (List.insertionSort startLe
      (clips.filter (fun c => c.track_id == a.track_id))) :=
    List.sorted_insertionSort startLe _
  have hpair := pairwise_disjoint_of_adjacentOk _ hsort hadj
  have hpair2 : List.Pairwise clipsDisjoint
      (clips.filter (fun c => c.track_id == a.track_id)) :=
    hpair.perm (List.perm_insertionSort startLe _)
      (fun hxy => Or.symm hxy)
  have hfab : [a, b].filter (fun c => c.track_id == a.track_id) =
      [a, b] := by
    simp [List.filter, hts.symm]
  have hsubf := hsub.filter (fun c => c.track_id == a.track_id)
  rw [hfab] at hsubf
  exact List.pairwise_iff_forall_sublist.mp hpair2 hsubf

theorem checkOverlap_of_sameTrackNoOverlap (clips : List ExportClip)
    (hd : ∀ c ∈ clips, 0 < c.duration) (h : sameTrackNoOverlap clips) :
    checkForOverlappingClips clips = .ok () := by
  rw [checkOverlap_ok_iff_all]
  intro t _
  haveI : IsTotal ExportClip startLe := ⟨fun x y => le_total _ _⟩
  haveI : IsTrans ExportClip startLe := ⟨fun _ _ _ => le_trans⟩
  have hgt : ∀ c ∈ clips.filter (fun c => c.track_id == t),
      c.track_id = t := by
    intro c hc
    simpa using (List.mem_filter.mp hc).2
  have h1 : List.Pairwise
      (fun a b => a.track_id = b.track_id → clipsDisjoint a b)
      (clips.filter (fun c => c.track_id == t)) :=
    List.Pairwise.filter _ h
  have hpairg : List.Pairwise clipsDisjoint
      (clips.filter (fun c => c.track_id == t)) :=
    List.Pairwise.imp_of_mem
      (fun ha hb hr => hr ((hgt _ ha).trans (hgt _ hb).symm)) h1
  have hsort := List.sorted_insertionSort startLe
    (clips.filter (fun c => c.track_id == t))
  have hpairs : List.Pairwise clipsDisjoint
      (List.insertionSort startLe
        (clips.filter (fun c => c.track_id == t))) :=
    hpairg.perm (List.perm_insertionSort startLe _).symm
      (fun hxy => Or.symm hxy)
  refine adjacentOk_of_pairwise_disjoint _ hsort ?_ hpairs
  intro c hc
  exact hd c ((List.filter_sublist clips).subset
    ((List.perm_insertionSort startLe _).subset hc))

/-- C3 (amended): the overlap check of the validator
(`check_for_overlapping_clips`) sorts each track group by `start_time`
before examining adjacent pairs, so for clip lists with positive
durations its verdict is invariant under any permutation of the input;
the full order-and-overlap validation is NOT permutation-invariant,
because `validate_track_ordering` requires each track's clips to be
supplied in chronological order (see the counterexample). -/
theorem overlap_check_perm_invariant (clips clips' : List ExportClip)
    (hperm : clips.Perm clips') (hd : ∀ c ∈ clips, 0 < c.duration) :
    (checkForOverlappingClips clips = .ok () ↔
     checkForOverlappingClips clips' = .ok ()) := by
  have hd' : ∀ c ∈ clips', 0 < c.duration :=
    fun c hc => hd c (hperm.mem_iff.mpr hc)
  constructor
  · intro h
    refine checkOverlap_of_sameTrackNoOverlap _ hd' ?_
    exact List.Pairwise.perm (sameTrackNoOverlap_of_checkOverlap _ h)
      hperm (fun hxy hts => Or.symm (hxy hts.symm))
  · intro h
    refine checkOverlap_of_sameTrackNoOverlap _ hd ?_
    exact List.Pairwise.perm (sameTrackNoOverlap_of_checkOverlap _ h)
      hperm.symm (fun hxy hts => Or.symm (hxy hts.symm))

/-- Witness for C3 (amended) on a concrete permuted pair. -/
theorem overlap_check_perm_invariant_witness :
    ([lateClip, earlyClip] : List ExportClip).Perm
      [earlyClip, lateClip] ∧
    (checkForOverlappingClips [lateClip, earlyClip] = .ok () ↔
     checkForOverlappingClips [earlyClip, lateClip] = .ok ()) := by
  have hperm : ([lateClip, earlyClip] : List ExportClip).Perm
      [earlyClip, lateClip] := List.Perm.swap earlyClip lateClip []
  refine ⟨hperm, overlap_check_perm_invariant _ _ hperm ?_⟩
  intro c hc
  rcases List.mem_cons.mp hc with rfl | hc
  · norm_num [lateClip]
  · rcases List.mem_cons.mp hc with rfl | hc
    · norm_num [earlyClip]
    · exact absurd hc (List.not_mem_nil c)

/-- Counterexample to C3 as stated: a two-clip single-track timeline
with disjoint windows is rejected when supplied in non-chronological
order but accepted in chronological order, so the accept/reject verdict
of the order-and-overlap validation is not permutation-invariant
(`validate_track_ordering` examines each track group in input order
without sorting). -/
theorem validator_not_perm_invariant :
    validateTimelineClipsForExport [lateClip, earlyClip] =
      .error .notChronological ∧
    validateTimelineClipsForExport [earlyClip, lateClip] = .ok () ∧
    ([lateClip, earlyClip] : List ExportClip).Perm
      [earlyClip, lateClip] ∧
    clipsDisjoint lateClip earlyClip := by
  refine ⟨?_, ?_, List.Perm.swap earlyClip lateClip [], ?_⟩
  · rfl
  · norm_num [validateTimelineClipsForExport, validateTrackOrdering,
      checkForOverlappingClips, trackIds, trackIds.dedupStr, chronoOk,
      adjacentOk, List.insertionSort, List.orderedInsert, startLe,
      validateClipFields, Bind.bind, Except.bind, List.filter,
      earlyClip, lateClip]
    simp
  · right
    norm_num [earlyClip, lateClip]

theorem overlap_ok_of_validator (clips : List ExportClip)
    (h : validateTimelineClipsForExport clips = .ok ()) :
    checkForOverlappingClips clips = .ok () := by
  unfold validateTimelineClipsForExport at h
  by_cases he : clips.isEmpty
  · rw [if_pos he] at h
    exact absurd h (by simp)
  · rw [if_neg he] at h
    cases h1 : validateTrackOrdering clips with
    | error e =>
      rw [h1] at h
      exact absurd h (by simp [Bind.bind, Except.bind])
    | ok u =>
      cases u
      rw [h1] at h
      simp only [Bind.bind, Except.bind] at h
      cases h2 : checkForOverlappingClips clips with
      | error e =>
        rw [h2] at h
        exact absurd h (by simp)
      | ok v => cases v; rfl

/-- C7: two clips sharing a `track_id` whose timeline windows
`[start_time, start_time + duration)` overlap are rejected by the export
validation, while the same two clips under different `track_id`s pass
the overlap check (cross-track overlap is not examined). -/
theorem same_track_overlap_verdicts (a b : ExportClip) :
    (a.track_id = b.track_id →
      b.start_time < a.start_time + a.duration →
      a.start_time < b.start_time + b.duration →
      validateTimelineClipsForExport [a, b] ≠ .ok ()) ∧
    (a.track_id ≠ b.track_id →
      checkForOverlappingClips [a, b] = .ok ()) := by
  constructor
  · intro hts h1 h2 hok
    have hover := overlap_ok_of_validator _ hok
    have hsame := sameTrackNoOverlap_of_checkOverlap _ hover
    have hr : a.track_id = b.track_id → clipsDisjoint a b :=
      (List.pairwise_cons.mp hsame).1 b (List.mem_cons_self b [])
    rcases hr hts with h | h
    · linarith
    · linarith
  · intro hne
    rw [checkOverlap_ok_iff_all]
    intro t ht
    rw [mem_trackIds] at ht
    obtain ⟨c, hc, rfl⟩ := ht
    rcases List.mem_cons.mp hc with rfl | hc'
    · have hb : (b.track_id == c.track_id) = false :=
        beq_eq_false_iff_ne.mpr (Ne.symm hne)
      have hf : [c, b].filter (fun x => x.track_id == c.track_id) =
          [c] := by
        simp [List.filter, hb]
      rw [hf]
      rfl
    · rcases List.mem_cons.mp hc' with rfl | hc''
      · have ha : (a.track_id == c.track_id) = false :=
          beq_eq_false_iff_ne.mpr hne
        have hf : [a, c].filter (fun x => x.track_id == c.track_id) =
            [c] := by
          simp [List.filter, ha]
        rw [hf]
        rfl
      · exact absurd hc'' (List.not_mem_nil c)

/-- Witness for C7 at concrete clip pairs. -/
theorem same_track_overlap_verdicts_witness :
    validateTimelineClipsForExport [earlyClip, midClip] ≠ .ok () ∧
    checkForOverlappingClips [earlyClip, midClipOtherTrack] = .ok () := by
  constructor
  · refine (same_track_overlap_verdicts earlyClip midClip).1 rfl ?_ ?_
    · norm_num [earlyClip, midClip]
    · norm_num [earlyClip, midClip]
  · refine (same_track_overlap_verdicts earlyClip midClipOtherTrack).2 ?_
    simp [earlyClip, midClipOtherTrack]

/-! ## The trim orchestrator loop (C8, C1) -/

theorem trimLoop_all_ok (env : Env) (needIdx : List Nat)
    (hok : ∀ n, env.trimFails n = false) :
    ∀ (cs : List ExportClip) (i : Nat) (tr : TempFileTracker) (sp : Nat),
      ∃ out tr' ev,
        trimLoop env needIdx i cs tr sp = (.ok out, tr', ev) ∧
        out.length = cs.length ∧
        (∀ j (hj : j < cs.length) (hj' : j < out.length),
          ((i + j) ∈ needIdx → ∃ p, out.get ⟨j, hj'⟩ =
            trimmedReplacement (cs.get ⟨j, hj⟩) p) ∧
          ((i + j) ∉ needIdx →
            out.get ⟨j, hj'⟩ = cs.get ⟨j, hj⟩)) ∧
        tr'.directories = tr.directories ∧
        (∃ nf, tr'.files = tr.files ++ nf) ∧
        (∀ p, Event.registerTemp p ∈ ev → p ∈ tr'.files) ∧
        (∀ l, Event.cleanup l ∉ ev)
  | [], i, tr, sp => by
    refine ⟨[], tr, [], rfl, rfl, ?_, rfl, ⟨[], by simp⟩, ?_, ?_⟩
    · intro j hj
      exact absurd hj (Nat.not_lt_zero j)
    · intro p hp
      exact absurd hp (List.not_mem_nil _)
    · intro l
      exact List.not_mem_nil _
  | c :: rest, i, tr, sp => by
    by_cases hi : i ∈ needIdx
    · obtain ⟨out', tr', ev', heq, hlen, hpt, hdir, ⟨nf, hnf⟩, hreg,
        hncl⟩ := trimLoop_all_ok env needIdx hok rest (i + 1)
          (createAndTrackTempFile tr "trimmed_clip"
            (getFileExtension c.file_path)).2 (sp + 1)
      refine ⟨trimmedReplacement c (createAndTrackTempFile tr
          "trimmed_clip" (getFileExtension c.file_path)).1 :: out',
        tr',
        .registerTemp (createAndTrackTempFile tr "trimmed_clip"
          (getFileExtension c.file_path)).1 :: .spawn :: ev',
        ?_, by simpa using hlen, ?_, ?_, ?_, ?_, ?_⟩
      · simp only [trimLoop, if_pos hi, hok sp, Bool.false_eq_true,
          if_false, heq, Except.map]
      · intro j hj hj'
        cases j with
        | zero =>
          refine ⟨fun _ => ⟨_, rfl⟩, fun hni => absurd ?_ hni⟩
          simpa using hi
        | succ j =>
          have hj2 : j < rest.length := by simpa using hj
          have hj2' : j < out'.length := by simpa using hj'
          have harith : i + (j + 1) = (i + 1) + j := by omega
          have := hpt j hj2 hj2'
          constructor
          · intro hmem
            rw [harith] at hmem
            simpa using this.1 hmem
          · intro hmem
            rw [harith] at hmem
            simpa using this.2 hmem
      · rw [hdir]; rfl
      · refine ⟨[(createAndTrackTempFile tr "trimmed_clip"
            (getFileExtension c.file_path)).1] ++ nf, ?_⟩
        rw [hnf]
        simp [createAndTrackTempFile, TempFileTracker.addFile]
      · intro p hp
        rcases List.mem_cons.mp hp with hp | hp
        · have hp1 : p = (createAndTrackTempFile tr "trimmed_clip"
              (getFileExtension c.file_path)).1 := by
            simpa using hp

          rw [hnf, hp1]
          simp [createAndTrackTempFile, TempFileTracker.addFile]
        · rcases List.mem_cons.mp hp with hp | hp
          · exact absurd hp (by simp)
          · exact hreg p hp
      · intro l hl
        rcases List.mem_cons.mp hl with hl | hl
        · exact absurd hl (by simp)
        · rcases List.mem_cons.mp hl with hl | hl
          · exact absurd hl (by simp)
          · exact hncl l hl
    · obtain ⟨out', tr', ev', heq, hlen, hpt, hdir, ⟨nf, hnf⟩, hreg,
        hncl⟩ := trimLoop_all_ok env needIdx hok rest (i + 1) tr (sp)
      refine ⟨c :: out', tr', ev', ?_, by simpa using hlen, ?_, hdir,
        ⟨nf, hnf⟩, hreg, hncl⟩
      · simp only [trimLoop, if_neg hi, heq, Except.map]
      · intro j hj hj'
        cases j with
        | zero =>
          refine ⟨fun hmem => absurd ?_ hi, fun _ => rfl⟩
          simpa using hmem
        | succ j =>
          have hj2 : j < rest.length := by simpa using hj
          have hj2' : j < out'.length := by simpa using hj'
          have harith : i + (j + 1) = (i + 1) + j := by omega
          have := hpt j hj2 hj2'
          constructor
          · intro hmem
            rw [harith] at hmem
            simpa using this.1 hmem
          · intro hmem
            rw [harith] at hmem
            simpa using this.2 hmem

/-- C8: with every trim subprocess succeeding, the trim orchestrator
returns one output clip per input clip; a clip selected for trimming is
replaced by a clip whose `duration` is `trim_end - trim_start`, whose
trim window is reset to `[0, duration]`, whose `trimmed_file_path` is
the fresh artifact path, and whose `start_time` and `track_id` are
unchanged; a clip not selected is returned unchanged. -/
theorem trim_replacement_fields (env : Env) (clips : List ExportClip)
    (tr : TempFileTracker) (hok : ∀ n, env.trimFails n = false) :
    ∃ out tr' ev,
      trimClipsForExportWithTracking env clips tr = (.ok out, tr', ev) ∧
      out.length = clips.length ∧
      ∀ j (hj : j < clips.length) (hj' : j < out.length),
        (j ∈ getClipsNeedingTrimming clips →
          ∃ p, out.get ⟨j, hj'⟩ =
              trimmedReplacement (clips.get ⟨j, hj⟩) p ∧
            (out.get ⟨j, hj'⟩).duration =
              (clips.get ⟨j, hj⟩).trim_end -
                (clips.get ⟨j, hj⟩).trim_start ∧
            (out.get ⟨j, hj'⟩).trim_start = 0 ∧
            (out.get ⟨j, hj'⟩).trim_end = (out.get ⟨j, hj'⟩).duration ∧
            (out.get ⟨j, hj'⟩).trimmed_file_path = some p ∧
            (out.get ⟨j, hj'⟩).start_time =
              (clips.get ⟨j, hj⟩).start_time ∧
            (out.get ⟨j, hj'⟩).track_id =
              (clips.get ⟨j, hj⟩).track_id) ∧
        (j ∉ getClipsNeedingTrimming clips →
          out.get ⟨j, hj'⟩ = clips.get ⟨j, hj⟩) := by
  obtain ⟨out, tr', ev, heq, hlen, hpt, _, _, _, _⟩ :=
    trimLoop_all_ok env (getClipsNeedingTrimming clips) hok clips 0 tr 0
  refine ⟨out, tr', ev, heq, hlen, ?_⟩
  intro j hj hj'
  have h0 := hpt j hj hj'
  rw [Nat.zero_add] at h0
  refine ⟨?_, h0.2⟩
  intro hmem
  obtain ⟨p, hp⟩ := h0.1 hmem
  refine ⟨p, hp, ?_, ?_, ?_, ?_, ?_, ?_⟩ <;>
    rw [hp] <;> rfl

/-- Witness for C8 on a concrete selected clip. -/
theorem trim_replacement_fields_witness :
    ∃ out tr' ev,
      trimClipsForExportWithTracking allOkEnv [trimNeedClip] ⟨[], []⟩ =
        (.ok out, tr', ev) ∧ out.length = 1 := by
  obtain ⟨out, tr', ev, heq, hlen, _⟩ :=
    trim_replacement_fields allOkEnv [trimNeedClip] ⟨[], []⟩
      (fun _ => rfl)
  exact ⟨out, tr', ev, heq, by simpa using hlen⟩

/-! ## Cleanup on pipeline failure (C1) -/

/-- Counterexample to C1 as stated: when the trim stage fails, the
error is surfaced with the registered temp artifact still tracked and
NO cleanup performed — the full event trace is just the registration
and the failed trim invocation
(`trim_clips_for_export_with_tracking` propagates the error via `?` and
`export_video_internal` only runs `cleanup_all` on the encode paths). -/
theorem trim_failure_no_cleanup :
    exportVideoInternal trimFailEnv [trimNeedClip] =
      (.error .toolFailure,
       TempFileTracker.new.addFile (tempFileName "trimmed_clip" "mp4" 0),
       [.registerTemp (tempFileName "trimmed_clip" "mp4" 0), .spawn]) ∧
    (TempFileTracker.new.addFile
        (tempFileName "trimmed_clip" "mp4" 0)).files =
      [tempFileName "trimmed_clip" "mp4" 0] ∧
    Event.cleanup ((TempFileTracker.new.addFile
        (tempFileName "trimmed_clip" "mp4" 0)).files) ∉
      [Event.registerTemp (tempFileName "trimmed_clip" "mp4" 0),
       Event.spawn] := by
  have hneed : getClipsNeedingTrimming [trimNeedClip] = [0] := by
    norm_num [getClipsNeedingTrimming, clipsNeedingTrimmingFrom,
      needsTrimming, trimNeedClip]
  have h1 : trimClipsForExportWithTracking trimFailEnv [trimNeedClip]
      TempFileTracker.new =
      (.error .toolFailure,
       TempFileTracker.new.addFile (tempFileName "trimmed_clip" "mp4" 0),
       [.registerTemp (tempFileName "trimmed_clip" "mp4" 0), .spawn]) := by
    rw [trimClipsForExportWithTracking, hneed]
    rfl
  refine ⟨?_, rfl, by simp⟩
  unfold exportVideoInternal
  rw [h1]

/-- C1 (amended): when the trim and manifest stages succeed, the encode
process spawns and exits non-zero, the error is surfaced only after a
best-effort cleanup of every resource registered with the tracker (the
cleanup event carries all tracked paths, and every temp registration of
the run is covered by it); when instead the trim stage fails, or the
encode process cannot be spawned, or the manifest write fails, the
error propagates without any cleanup (see the counterexample). -/
theorem encode_failure_cleans_tracked (env : Env)
    (clips : List ExportClip)
    (hok : ∀ n, env.trimFails n = false)
    (hw : env.concatWriteFails = false)
    (hsp : env.encodeSpawnFails = false)
    (hex : env.encodeExitFails = true) :
    ∃ tr ev₀,
      exportVideoInternal env clips =
        (.error .toolFailure, tr,
         ev₀ ++ [.cleanup (cleanupPaths tr)]) ∧
      ∀ p, Event.registerTemp p ∈ ev₀ → p ∈ cleanupPaths tr := by
  obtain ⟨out, tr1, ev, heq, _, _, hdir, ⟨nf, hnf⟩, hreg, _⟩ :=
    trimLoop_all_ok env (getClipsNeedingTrimming clips) hok clips 0
      TempFileTracker.new 0
  have heq' : trimClipsForExportWithTracking env clips
      TempFileTracker.new = (.ok out, tr1, ev) := heq
  refine ⟨(createAndTrackTempFile tr1 "concat" "txt").2,
    ev ++ [.registerTemp (createAndTrackTempFile tr1 "concat" "txt").1,
      .spawn], ?_, ?_⟩
  · unfold exportVideoInternal
    rw [heq']
    simp only [generateConcatFileWithTracking, hw, hsp, hex,
      Bool.false_eq_true, if_false, if_true, List.append_assoc,
      List.cons_append, List.nil_append, List.singleton_append]
  · intro p hp
    have hfiles : (createAndTrackTempFile tr1 "concat" "txt").2.files =
        tr1.files ++ [(createAndTrackTempFile tr1 "concat" "txt").1] := by
      simp [createAndTrackTempFile, TempFileTracker.addFile]
    rcases List.mem_append.mp hp with hp | hp
    · have hp1 := hreg p hp
      unfold cleanupPaths
      refine List.mem_append.mpr (Or.inl ?_)
      rw [hfiles]
      exact List.mem_append.mpr (Or.inl hp1)
    · rcases List.mem_cons.mp hp with hp | hp
      · have hp1 : p = (createAndTrackTempFile tr1 "concat" "txt").1 := by
          simpa using hp
        subst hp1
        unfold cleanupPaths
        refine List.mem_append.mpr (Or.inl ?_)
        rw [hfiles]
        simp
      · rcases List.mem_cons.mp hp with hp | hp
        · exact absurd hp (by simp)
        · exact absurd hp (List.not_mem_nil _)

/-- Witness for C1 (amended): a run with no clips, successful manifest
write, and a failing encode. -/
theorem encode_failure_cleans_tracked_witness :
    ∃ tr ev₀,
      exportVideoInternal encodeFailEnv [] =
        (.error .toolFailure, tr,
         ev₀ ++ [.cleanup (cleanupPaths tr)]) ∧
      ∀ p, Event.registerTemp p ∈ ev₀ → p ∈ cleanupPaths tr :=
  encode_failure_cleans_tracked encodeFailEnv []
    (fun _ => rfl) rfl rfl rfl

/-! ## Preconditions before any effect (C4) -/

/-- C4: any violation of the three export preconditions — valid
settings enums, non-empty clip collection, existing output directory —
is rejected with an error and an empty effect trace (no subprocess
spawned, no temp resource registered); conversely a run that performed
any effect had passed all three checks. -/
theorem preconditions_before_effects (env : Env) (s : ExportSettings)
    (clips : List ExportClip) :
    ((validateExportSettings s ≠ .ok () ∨ clips = [] ∨
        env.outputDirExists = false) →
      ∃ e, exportTimeline env s clips = (.error e, [])) ∧
    ((exportTimeline env s clips).2 ≠ [] →
      validateExportSettings s = .ok () ∧ clips ≠ [] ∧
        env.outputDirExists = true) := by
  cases hs : validateExportSettings s with
  | error e =>
    constructor
    · intro _
      exact ⟨e, by unfold exportTimeline; rw [hs]⟩
    · intro htr
      exfalso
      apply htr
      unfold exportTimeline
      rw [hs]
  | ok u =>
    cases u
    have hpipe : exportTimeline env s clips = exportVideo env clips := by
      unfold exportTimeline
      rw [hs]
    rw [hpipe]
    by_cases hemp : clips.isEmpty
    · have hclips : clips = [] := by
        simpa [List.isEmpty_iff] using hemp
      have hev : exportVideo env clips = (.error .noClips, []) := by
        unfold exportVideo
        rw [if_pos hemp]
      rw [hev]
      exact ⟨fun _ => ⟨.noClips, rfl⟩, fun htr => absurd rfl htr⟩
    · have hclips : clips ≠ [] := by
        simpa [List.isEmpty_iff] using hemp
      cases h1 : validateExportClipsTrimData clips with
      | error e1 =>
        have hev : exportVideo env clips = (.error e1, []) := by
          unfold exportVideo
          rw [if_neg hemp, h1]
        rw [hev]
        exact ⟨fun _ => ⟨e1, rfl⟩, fun htr => absurd rfl htr⟩
      | ok u1 =>
        cases u1
        cases h2 : validateTimelineClipsForExport clips with
        | error e2 =>
          have hev : exportVideo env clips = (.error e2, []) := by
            unfold exportVideo
            rw [if_neg hemp, h1, h2]
          rw [hev]
          exact ⟨fun _ => ⟨e2, rfl⟩, fun htr => absurd rfl htr⟩
        | ok u2 =>
          cases u2
          by_cases hpar : env.outputPathHasParent
          · by_cases hdir : env.outputDirExists
            · constructor
              · rintro (hbad | hbad | hbad)
                · exact absurd rfl hbad
                · exact absurd hbad hclips
                · rw [hdir] at hbad
                  exact absurd hbad (by simp)
              · intro _
                exact ⟨rfl, hclips, hdir⟩
            · have hev : exportVideo env clips =
                  (.error .outputDirMissing, []) := by
                unfold exportVideo
                rw [if_neg hemp, h1, h2, if_neg (not_not_intro hpar),
                  if_pos hdir]
              rw [hev]
              exact ⟨fun _ => ⟨.outputDirMissing, rfl⟩,
                fun htr => absurd rfl htr⟩
          · have hev : exportVideo env clips =
                (.error .invalidOutputPath, []) := by
              unfold exportVideo
              rw [if_neg hemp, h1, h2, if_pos hpar]
            rw [hev]
            exact ⟨fun _ => ⟨.invalidOutputPath, rfl⟩,
              fun htr => absurd rfl htr⟩

/-- Witness for C4 on invalid settings. -/
theorem preconditions_before_effects_witness :
    ∃ e, exportTimeline allOkEnv badSettings [] = (.error e, []) :=
  (preconditions_before_effects allOkEnv badSettings []).1
    (Or.inl (by simp [validateExportSettings, badSettings]))

/-! ## Progress parsing (C5) -/

/-- C5: with a positive total duration, the parser returns nothing
exactly when the line contains no `HH:MM:SS.hh` elapsed-time field;
otherwise it returns a progress structure whose `progress` is
`min(elapsed/total*100, 100)` with `elapsed = h*3600 + m*60 + s`, whose
`estimated_time_remaining` is `(total - elapsed)/speed` when a positive
speed is parsed from the line and `0` otherwise; and when the elapsed
time equals the total duration the progress is exactly `100`. -/
theorem parse_progress_spec (line : String) (total : ℚ)
    (htot : 0 < total) :
    ((parseFfmpegProgress line total = none) ↔
      findTime line.data = none) ∧
    ∀ h m s f, findTime line.data = some (h, m, s, f) →
      ∃ p, parseFfmpegProgress line total = some p ∧
        p.progress = min (timeValue h m s f / total * 100) 100 ∧
        p.estimated_time_remaining =
          (match findSpeed line.data with
           | some sp =>
             if 0 < sp then (total - timeValue h m s f) / sp else 0
           | none => 0) ∧
        (timeValue h m s f = total → p.progress = 100) := by
  constructor
  · simp only [parseFfmpegProgress]
    cases hft : findTime line.data with
    | none => simp [hft]
    | some r =>
      obtain ⟨h, m, s, f⟩ := r
      simp [hft]
  · intro h m s f hft
    simp only [parseFfmpegProgress]
    rw [hft]
    refine ⟨_, rfl, ?_, rfl, ?_⟩
    · show (if 0 < total
          then min (timeValue h m s f / total * 100) 100 else 0) =
        min (timeValue h m s f / total * 100) 100
      rw [if_pos htot]
    · intro heq
      show (if 0 < total
          then min (timeValue h m s f / total * 100) 100 else 0) = 100
      rw [if_pos htot, heq, div_self (ne_of_gt htot), one_mul, min_self]

/-- Witness for C5 on the source's own example progress line with a
60-second total. -/
theorem parse_progress_spec_witness :
    (0 : ℚ) < 60 ∧
    findTime demoLine.data = some (0, 0, 41, 13) ∧
    ∃ p, parseFfmpegProgress demoLine 60 = some p ∧
      p.progress = min (timeValue 0 0 41 13 / 60 * 100) 100 ∧
      p.estimated_time_remaining =
        (match findSpeed demoLine.data with
         | some sp =>
           if 0 < sp then (60 - timeValue 0 0 41 13) / sp else 0
         | none => 0) ∧
      (timeValue 0 0 41 13 = 60 → p.progress = 100) := by
  have h60 : (0 : ℚ) < 60 := by decide
  have hft : findTime demoLine.data = some (0, 0, 41, 13) := by decide
  exact ⟨h60, hft,
    (parse_progress_spec demoLine 60 h60).2 0 0 41 13 hft⟩

end ClipForge
